import Mathlib

/-!
Verification development for the `mongo-c-driver-async` documentation tooling.

The repository contains three Python files:
  * `docs/conf.py` — Sphinx configuration, including `generate_sphinx_inventory`,
    which writes a Sphinx object-inventory file;
  * `tools/docs-build.py` — an orchestrator that clones, builds, commits and
    pushes the documentation;
  * `tools/include-fixup.py` — a normalizer rewriting quoted `#include`
    directives to angle-bracket form.

Strings of the Python programs are modelled as `List Char`; bytes as
`List Nat` (code points, which coincides with UTF-8 for the ASCII data in
play).  `zlib.compress` is an external library call and is kept abstract as a
function parameter `compress : List Nat → List Nat`.
-/

namespace PyStr

/-- Splitting a string into pieces at `'\n'`, following Python's
`str.split("\n")` (a trailing newline yields a final empty piece). -/
def splitLines : List Char → List (List Char)
  | [] => [[]]
  | c :: cs =>
    if c = '\n' then [] :: splitLines cs
    else
      match splitLines cs with
      | [] => [[c]]
      | l :: ls => (c :: l) :: ls

/-- Python's `"\n".join(pieces)`. -/
def joinLines : List (List Char) → List Char
  | [] => []
  | [l] => l
  | l :: ls => l ++ '\n' :: joinLines ls

end PyStr

namespace Conf

open PyStr

/-- One entry of the `CPPREF_INVENTORY` list: the `InvItem` named tuple of
`docs/conf.py`. -/
structure InvItem where
  refnames : List (List Char)
  role : List Char
  path : List Char
  disp_name : Option (List Char) := none
deriving DecidableEq

/-- Python's `a or b` for `a : str | None`: `None` and the empty string are
falsy, so both fall back to `b`. -/
def pyOrStr (a : Option (List Char)) (b : List Char) : List Char :=
  match a with
  | none => b
  | some s => if s = [] then b else s

/-- One line of the inventory payload, from
`f"{refname} {i.role} 1 {i.path} {i.disp_name or refname}\n"` in
`generate_sphinx_inventory`. -/
def invRecord (i : InvItem) (refname : List Char) : List Char :=
  refname ++ " ".data ++ i.role ++ " 1 ".data ++ i.path ++ " ".data
    ++ pyOrStr i.disp_name refname ++ "\n".data

/-- The concatenation of all payload records (the argument of
`zlib.compress` in `generate_sphinx_inventory`). -/
def inventoryPayload (items : List InvItem) : List Char :=
  (items.map (fun i => (i.refnames.map (invRecord i)).flatten)).flatten

/-- The plaintext header of the generated inventory file, from the
`newdat = ...` expression in `generate_sphinx_inventory`. -/
def inventoryHeader (pn pv : List Char) : List Char :=
  "# Sphinx inventory version 2\n".data
    ++ "# Project: ".data ++ pn ++ "\n".data
    ++ "# Version: ".data ++ pv ++ "\n".data
    ++ "# The remainder of this file is compressed using zlib.\n".data

/-- Byte encoding of an ASCII string (UTF-8 agrees with code points there). -/
def encodeBytes (s : List Char) : List Nat :=
  s.map Char.toNat

/-- The full byte content `newdat` computed by `generate_sphinx_inventory`,
with `zlib.compress` abstracted as `compress`. -/
def inventoryFileBytes (compress : List Nat → List Nat)
    (pn pv : List Char) (items : List InvItem) : List Nat :=
  encodeBytes (inventoryHeader pn pv)
    ++ compress (encodeBytes (inventoryPayload items))

/-- Number of `'#'`-prefixed lines of the inventory header. -/
def headerHashLineCount (pn pv : List Char) : Nat :=
  ((splitLines (inventoryHeader pn pv)).filter
    (fun l => l.head? = some '#')).length

/-- The final write-skip step of `generate_sphinx_inventory`: read the current
bytes of the output file (a missing file reads as `b""`), write only when the
freshly generated content differs.  Returns the file state after the call and
whether a write happened. -/
def writeInventory (compress : List Nat → List Nat)
    (pn pv : List Char) (items : List InvItem)
    (cur : Option (List Nat)) : Option (List Nat) × Bool :=
  let newdat := inventoryFileBytes compress pn pv items
  let curB := match cur with
    | none => ([] : List Nat)
    | some b => b
  if newdat = curB then (cur, false) else (some newdat, true)

end Conf

namespace DocsBuild

/-- The external commands and filesystem operations performed by `main` of
`tools/docs-build.py`, in the order the script can reach them. -/
inductive Step
  | cloneClean
  | rmtreeScratch
  | iterScratch
  | cloneRemote
  | gitRm
  | sphinxBuild
  | writeNojekyll
  | unlinkBuildinfo
  | gitAdd
  | gitCommit
  | gitPush
deriving DecidableEq, Repr

/-- How `main` of `tools/docs-build.py` can terminate abnormally:
a `subprocess.CalledProcessError` propagated by `run`/`check_call`, an
unhandled `FileNotFoundError` (from `scratch_dir.iterdir()` or
`.buildinfo` `unlink()`), or the explicit
`RuntimeError("Scratch directory [...] is not empty")`. -/
inductive MainErr
  | subprocess (s : Step)
  | fileNotFound (s : Step)
  | scratchNotEmpty
deriving DecidableEq, Repr

/-- The parsed command-line arguments of `tools/docs-build.py` that influence
control flow (`--scratch-dir` and `--remote` only feed into command lines). -/
structure Args where
  cleanRepoBranch : Option String
  commitBranch : Option String
  scratchDir : String
  remote : String
  skipRemoteClone : Bool
  deletePrior : Bool
  push : Bool

/-- Outcomes of the external commands the script invokes: whether each git
command succeeds, the exit status returned by
`sphinx.cmd.build.build_main` (0 = success), and whether the `.buildinfo`
file exists when the script tries to `unlink()` it. -/
structure Env where
  cloneCleanOk : Bool
  cloneRemoteOk : Bool
  gitRmOk : Bool
  buildStatus : Nat
  buildinfoExists : Bool
  gitAddOk : Bool
  gitCommitOk : Bool
  gitPushOk : Bool

/-- The filesystem facts the script depends on or mutates: existence and
non-emptiness of the scratch directory, existence of this invocation's
temporary clone directory, the `.nojekyll` marker, and whether a commit /
push was recorded. -/
structure FS where
  scratchExists : Bool
  scratchNonEmpty : Bool
  tmpExists : Bool
  nojekyll : Bool
  committed : Bool
  pushed : Bool
deriving DecidableEq, Repr

/-- The tail of `main`: `sphinx.cmd.build.build_main(...)` (whose returned
status the script discards), the `.nojekyll` marker write, and — when
`--commit-branch` was given — `.buildinfo` removal, `git add`, `git commit`
and the optional `git push`. -/
def buildPhase (a : Args) (env : Env) (fs : FS) :
    Except MainErr Unit × List Step × FS :=
  -- NOTE: the script calls `sphinx.cmd.build.build_main([...])` as a bare
  -- expression statement: `env.buildStatus` is discarded and does not guard
  -- anything that follows.
  let fs := { fs with scratchExists := true }
  let tr := [Step.sphinxBuild]
  let fs := { fs with nojekyll := true }
  let tr := tr ++ [Step.writeNojekyll]
  match a.commitBranch with
  | none => (.ok (), tr, fs)
  | some _ =>
    if !env.buildinfoExists then
      (.error (.fileNotFound .unlinkBuildinfo), tr ++ [Step.unlinkBuildinfo], fs)
    else
      let tr := tr ++ [Step.unlinkBuildinfo, Step.gitAdd]
      if !env.gitAddOk then (.error (.subprocess .gitAdd), tr, fs)
      else
        let tr := tr ++ [Step.gitCommit]
        if !env.gitCommitOk then (.error (.subprocess .gitCommit), tr, fs)
        else
          let fs := { fs with committed := true }
          if a.push then
            if !env.gitPushOk then
              (.error (.subprocess .gitPush), tr ++ [Step.gitPush], fs)
            else (.ok (), tr ++ [Step.gitPush], { fs with pushed := true })
          else (.ok (), tr, fs)

/-- The `--commit-branch` preparation block of `main`: optional
`shutil.rmtree` of the scratch directory (`FileNotFoundError` suppressed),
the `next(iter(scratch_dir.iterdir()), None)` emptiness check (which itself
raises `FileNotFoundError` when the directory is missing), the optional
remote clone, and `git rm -rf .`; then the build phase. -/
def commitPrep (a : Args) (env : Env) (fs : FS) :
    Except MainErr Unit × List Step × FS :=
  match a.commitBranch with
  | none => buildPhase a env fs
  | some _ =>
    let (tr0, fs0) :=
      if a.deletePrior then
        ([Step.rmtreeScratch],
         { fs with scratchExists := false, scratchNonEmpty := false })
      else ([], fs)
    if !fs0.scratchExists then
      (.error (.fileNotFound .iterScratch), tr0 ++ [Step.iterScratch], fs0)
    else if fs0.scratchNonEmpty then
      (.error .scratchNotEmpty, tr0 ++ [Step.iterScratch], fs0)
    else
      let tr1 := tr0 ++ [Step.iterScratch]
      if !a.skipRemoteClone then
        if !env.cloneRemoteOk then
          (.error (.subprocess .cloneRemote), tr1 ++ [Step.cloneRemote], fs0)
        else
          let fs1 := { fs0 with scratchNonEmpty := true }
          let tr2 := tr1 ++ [Step.cloneRemote, Step.gitRm]
          if !env.gitRmOk then (.error (.subprocess .gitRm), tr2, fs1)
          else
            let r := buildPhase a env fs1
            (r.1, tr2 ++ r.2.1, r.2.2)
      else
        let tr2 := tr1 ++ [Step.gitRm]
        if !env.gitRmOk then (.error (.subprocess .gitRm), tr2, fs0)
        else
          let r := buildPhase a env fs0
          (r.1, tr2 ++ r.2.1, r.2.2)

/-- The body of the `with ExitStack()` block: the optional clean clone
followed by `commitPrep`. -/
def mainBody (a : Args) (env : Env) (fs : FS) :
    Except MainErr Unit × List Step × FS :=
  match a.cleanRepoBranch with
  | none => commitPrep a env fs
  | some _ =>
    if !env.cloneCleanOk then
      (.error (.subprocess .cloneClean), [Step.cloneClean], fs)
    else
      let r := commitPrep a env fs
      (r.1, Step.cloneClean :: r.2.1, r.2.2)

/-- `main` of `tools/docs-build.py`.  When `--clean-repo-branch` is given,
`tempfile.TemporaryDirectory` is entered on the `ExitStack`, so the
temporary clone directory is created before the body and removed when the
`with` block is left on ANY path (normal return or exception). -/
def runMain (a : Args) (env : Env) (fs : FS) :
    Except MainErr Unit × List Step × FS :=
  match a.cleanRepoBranch with
  | none => mainBody a env fs
  | some _ =>
    let r := mainBody a env { fs with tmpExists := true }
    (r.1, r.2.1, { r.2.2 with tmpExists := false })

/-- Whether an outcome of `main` is an abnormal termination (the Python
process then exits with a nonzero status). -/
def failed : Except MainErr Unit → Bool
  | .error _ => true
  | .ok _ => false

/-- An environment in which every external command succeeds and the sphinx
build returns exit status `bs`. -/
def allOkEnv (bs : Nat) : Env :=
  ⟨true, true, true, bs, true, true, true, true⟩

/-- Scratch directory exists and is empty; nothing else present. -/
def emptyScratchFS : FS := ⟨true, false, false, false, false, false⟩

/-- Scratch directory exists and contains at least one entry. -/
def fullScratchFS : FS := ⟨true, true, false, false, false, false⟩

end DocsBuild

namespace IncludeFixup

open PyStr

/-- Python's `\s` on ASCII input (`re` whitespace class). -/
def isPySpace (c : Char) : Bool :=
  c = ' ' || c = '\t' || c = '\n' || c = '\r' || c = '\x0b' || c = '\x0c'

/-- Python's `\w` on ASCII input (`re` word class). -/
def isPyWord (c : Char) : Bool :=
  c.isAlphanum || c = '_'

/-- Strip an exact literal from the front of a string, or fail. -/
def dropLit : List Char → List Char → Option (List Char)
  | [], s => some s
  | _ :: _, [] => none
  | p :: ps, c :: cs => if c = p then dropLit ps cs else none

/-- Split a string at its LAST `'"'` character (the greedy backtracking of
`.*"`): `some (before, after)`, both without that quote. -/
def lastQuoteSplit : List Char → Option (List Char × List Char)
  | [] => none
  | c :: cs =>
    match lastQuoteSplit cs with
    | some (a, b) => some (c :: a, b)
    | none => if c = '"' then some ([], cs) else none

/-- Match of `INCLUDE_RE = (\s*#include\s+)"(\w.*)"(.*)$` anchored at the
start of `s`, returning the three groups.  The greedy/backtracking
semantics collapses to: maximal whitespace run, the literal `#include`, a
nonempty maximal whitespace run, `'"'`, one word character, then the rest
of the line up to its last `'"'` (group 2), and everything after that
quote (group 3). -/
def matchInclude (s : List Char) :
    Option (List Char × List Char × List Char) :=
  let sp1 := s.takeWhile isPySpace
  let r1 := s.dropWhile isPySpace
  match dropLit "#include".data r1 with
  | none => none
  | some r2 =>
    let sp2 := r2.takeWhile isPySpace
    let r3 := r2.dropWhile isPySpace
    match sp2 with
    | [] => none
    | _ :: _ =>
      match r3 with
      | '"' :: w :: rest =>
        if isPyWord w then
          match lastQuoteSplit rest with
          | some (g2t, g3) =>
            some (sp1 ++ "#include".data ++ sp2, w :: g2t, g3)
          | none => none
        else none
      | _ => none

/-- Leftmost match of `INCLUDE_RE` in a line, as `re.sub` finds it:
`some (pre, g1, g2, g3)` with `pre` the text before the match. -/
def findInclude :
    List Char → Option (List Char × List Char × List Char × List Char)
  | [] => none
  | c :: cs =>
    match matchInclude (c :: cs) with
    | some (g1, g2, g3) => some ([], g1, g2, g3)
    | none =>
      match findInclude cs with
      | some (pre, g1, g2, g3) => some (c :: pre, g1, g2, g3)
      | none => none

/-- `INCLUDE_RE.sub(subst(fpath), ln)` on a single line: because every
match of the pattern extends to the end of the line, `re.sub` performs at
most one substitution, replacing the two quotes with angle brackets. -/
def fixLine (s : List Char) : List Char :=
  match findInclude s with
  | none => s
  | some (pre, g1, g2, g3) => pre ++ g1 ++ '<' :: g2 ++ '>' :: g3

/-- The whole-file transformation of `tools/include-fixup.py`:
`"\n".join(INCLUDE_RE.sub(subst(fpath), ln) for ln in old_lines.split("\n"))`. -/
def fixContent (s : List Char) : List Char :=
  joinLines ((splitLines s).map fixLine)

/-- Number of substitutions `re.sub` performs on a file's content: one per
line with a match. -/
def substCount (s : List Char) : Nat :=
  ((splitLines s).filter (fun l => (findInclude l).isSome)).length

/-- A source file enumerated by the `source_files` glob. -/
structure SrcFile where
  name : List Char
  content : List Char
deriving DecidableEq

/-- Whether the loop body would find the file's content changed
(`new_lines == old_lines` fails). -/
def offending (f : SrcFile) : Bool :=
  if fixContent f.content = f.content then false else true

/-- The diagnostic printed to `sys.stderr` in check mode for one file. -/
def diagLine (name : List Char) : List Char :=
  "File [".data ++ name ++ "] contains improper #include directives".data

/-- The `for fpath in source_files:` loop: returns the files afterwards,
the stderr diagnostics, the `err` flag, and the names of files written. -/
def runFiles (check : Bool) :
    List SrcFile → List SrcFile × List (List Char) × Bool × List (List Char)
  | [] => ([], [], false, [])
  | f :: fs =>
    let newc := fixContent f.content
    let (fs', ds, e, ws) := runFiles check fs
    if newc = f.content then (f :: fs', ds, e, ws)
    else if check then (f :: fs', diagLine f.name :: ds, true, ws)
    else (⟨f.name, newc⟩ :: fs', ds, e, f.name :: ws)

/-- One invocation of `tools/include-fixup.py`: the loop followed by
`if err: sys.exit(1)`.  Returns (files afterwards, stderr diagnostics,
exit code, names of files written). -/
def runFix (check : Bool) (files : List SrcFile) :
    List SrcFile × List (List Char) × Nat × List (List Char) :=
  let (fs', ds, e, ws) := runFiles check files
  (fs', ds, if e then 1 else 0, ws)

end IncludeFixup

namespace PyStr

theorem splitLines_ne_nil (s : List Char) : splitLines s ≠ [] := by
  induction s with
  | nil => simp [splitLines]
  | cons c cs ih =>
    simp only [splitLines]
    split
    · simp
    · cases h : splitLines cs with
      | nil => simp
      | cons l ls => simp

theorem splitLines_append_newline (a b : List Char) (ha : '\n' ∉ a) :
    splitLines (a ++ '\n' :: b) = a :: splitLines b := by
  induction a with
  | nil => simp [splitLines]
  | cons c cs ih =>
    have hc : c ≠ '\n' := by
      intro h; exact ha (by simp [h])
    have hcs : '\n' ∉ cs := fun h => ha (by simp [h])
    simp only [List.cons_append, splitLines, if_neg hc]
    rw [show cs.append ('\n' :: b) = cs ++ '\n' :: b from rfl, ih hcs]

end PyStr

namespace Conf

open PyStr

theorem splitLines_inventoryHeader (pn pv : List Char)
    (hpn : '\n' ∉ pn) (hpv : '\n' ∉ pv) :
    splitLines (inventoryHeader pn pv)
      = ["# Sphinx inventory version 2".data,
         "# Project: ".data ++ pn,
         "# Version: ".data ++ pv,
         "# The remainder of this file is compressed using zlib.".data,
         []] := by
  have h2 : '\n' ∉ "# Project: ".data ++ pn := by
    intro h
    rcases List.mem_append.mp h with h | h
    · exact absurd h (by decide)
    · exact hpn h
  have h3 : '\n' ∉ "# Version: ".data ++ pv := by
    intro h
    rcases List.mem_append.mp h with h | h
    · exact absurd h (by decide)
    · exact hpv h
  have d1 : ("# Sphinx inventory version 2\n".data : List Char)
      = "# Sphinx inventory version 2".data ++ ['\n'] := by decide
  have d4 : ("# The remainder of this file is compressed using zlib.\n".data : List Char)
      = "# The remainder of this file is compressed using zlib.".data ++ ['\n'] := by
    decide
  have dnl : ("\n".data : List Char) = ['\n'] := by decide
  have e : inventoryHeader pn pv
      = "# Sphinx inventory version 2".data
        ++ '\n' :: (("# Project: ".data ++ pn)
        ++ '\n' :: (("# Version: ".data ++ pv)
        ++ '\n' :: ("# The remainder of this file is compressed using zlib.".data
        ++ '\n' :: ([] : List Char)))) := by
    simp [inventoryHeader, d1, d4, dnl]
  rw [e, splitLines_append_newline _ _ (by decide),
      splitLines_append_newline _ _ h2,
      splitLines_append_newline _ _ h3,
      splitLines_append_newline _ _ (by decide)]
  rfl

theorem inventoryFileBytes_ne_nil (compress : List Nat → List Nat)
    (pn pv : List Char) (items : List InvItem) :
    inventoryFileBytes compress pn pv items ≠ [] := by
  intro h
  simp [inventoryFileBytes, encodeBytes, inventoryHeader] at h

end Conf

namespace IncludeFixup

theorem dropLit_sound : ∀ {p s r : List Char}, dropLit p s = some r → s = p ++ r := by
  intro p
  induction p with
  | nil =>
    intro s r h
    simp [dropLit] at h
    simp [h]
  | cons c cs ih =>
    intro s r h
    cases s with
    | nil => simp [dropLit] at h
    | cons x xs =>
      by_cases hx : x = c
      · simp only [dropLit, if_pos hx] at h
        rw [hx, List.cons_append, ← ih h]
      · simp [dropLit, hx] at h

theorem lastQuoteSplit_sound :
    ∀ {l a b : List Char}, lastQuoteSplit l = some (a, b) → l = a ++ '"' :: b := by
  intro l
  induction l with
  | nil => intro a b h; simp [lastQuoteSplit] at h
  | cons c cs ih =>
    intro a b h
    unfold lastQuoteSplit at h
    cases hq : lastQuoteSplit cs with
    | some p =>
      obtain ⟨a', b'⟩ := p
      rw [hq] at h
      simp only [Option.some.injEq, Prod.mk.injEq] at h
      obtain ⟨rfl, rfl⟩ := h
      simp [ih hq]
    | none =>
      rw [hq] at h
      by_cases hc : c = '"'
      · simp only [if_pos hc] at h
        simp only [Option.some.injEq, Prod.mk.injEq] at h
        obtain ⟨rfl, rfl⟩ := h
        simp [hc]
      · simp [hc] at h

theorem matchInclude_sound {s g1 g2 g3 : List Char}
    (h : matchInclude s = some (g1, g2, g3)) :
    s = g1 ++ '"' :: g2 ++ '"' :: g3 := by
  have hs : s.takeWhile isPySpace ++ s.dropWhile isPySpace = s :=
    List.takeWhile_append_dropWhile isPySpace s
  unfold matchInclude at h
  dsimp only [] at h
  split at h
  · exact absurd h (by simp)
  case _ r2 hd =>
    have hr1 : s.dropWhile isPySpace = "#include".data ++ r2 := dropLit_sound hd
    have hs2 : r2.takeWhile isPySpace ++ r2.dropWhile isPySpace = r2 :=
      List.takeWhile_append_dropWhile isPySpace r2
    split at h
    · exact absurd h (by simp)
    case _ c cs hsp2 =>
      split at h
      case _ w rest hr3 =>
        split at h
        · split at h
          case _ g2t g3' hq =>
            simp only [Option.some.injEq, Prod.mk.injEq] at h
            obtain ⟨rfl, rfl, rfl⟩ := h
            have hrest : rest = g2t ++ '"' :: g3' := lastQuoteSplit_sound hq
            have hr2d : r2 = (c :: cs) ++ '"' :: w :: rest := by
              rw [← hs2, hsp2, hr3]
            rw [hsp2]
            conv_lhs => rw [← hs]
            rw [hr1, hr2d, hrest]
            simp
          · exact absurd h (by simp)
        · exact absurd h (by simp)
      · exact absurd h (by simp)

theorem findInclude_sound :
    ∀ {s pre g1 g2 g3 : List Char},
      findInclude s = some (pre, g1, g2, g3) →
      s = pre ++ g1 ++ '"' :: g2 ++ '"' :: g3 := by
  intro s
  induction s with
  | nil => intro pre g1 g2 g3 h; simp [findInclude] at h
  | cons c cs ih =>
    intro pre g1 g2 g3 h
    unfold findInclude at h
    split at h
    case _ a b d hm =>
      simp only [Option.some.injEq, Prod.mk.injEq] at h
      obtain ⟨rfl, rfl, rfl, rfl⟩ := h
      simpa using matchInclude_sound hm
    case _ hm =>
      split at h
      case _ p q u v hf =>
        simp only [Option.some.injEq, Prod.mk.injEq] at h
        obtain ⟨rfl, rfl, rfl, rfl⟩ := h
        simp [ih hf]
      case _ => exact absurd h (by simp)

theorem findInclude_two_quotes {s pre g1 g2 g3 : List Char}
    (h : findInclude s = some (pre, g1, g2, g3)) :
    2 ≤ s.count '"' := by
  rw [findInclude_sound h]
  simp [List.count_append, List.count_cons]
  omega

theorem fixLine_count {s pre g1 g2 g3 : List Char}
    (h : findInclude s = some (pre, g1, g2, g3)) :
    (fixLine s).count '"' + 2 = s.count '"' := by
  have hd := findInclude_sound h
  simp only [fixLine, h]
  conv_rhs => rw [hd]
  simp [List.count_append, List.count_cons]
  omega

theorem fixLine_ne {s pre g1 g2 g3 : List Char}
    (h : findInclude s = some (pre, g1, g2, g3)) :
    fixLine s ≠ s := by
  intro he
  have := fixLine_count h
  rw [he] at this
  omega

theorem no_rematch {s : List Char} (hc : s.count '"' ≤ 2) :
    findInclude (fixLine s) = none := by
  cases h : findInclude s with
  | none => simp [fixLine, h]
  | some g =>
    obtain ⟨pre, g1, g2, g3⟩ := g
    cases h2 : findInclude (fixLine s) with
    | none => rfl
    | some g2' =>
      obtain ⟨p, a, b, c⟩ := g2'
      have t1 := findInclude_two_quotes h2
      have t2 := fixLine_count h
      omega

end IncludeFixup

namespace PyStr

theorem splitLines_no_newline :
    ∀ {s l : List Char}, l ∈ splitLines s → '\n' ∉ l := by
  intro s
  induction s with
  | nil =>
    intro l hl
    simp [splitLines] at hl
    simp [hl]
  | cons c cs ih =>
    intro l hl
    by_cases hc : c = '\n'
    · rw [show splitLines (c :: cs) = [] :: splitLines cs by
          simp [splitLines, hc]] at hl
      rcases List.mem_cons.mp hl with rfl | hl
      · simp
      · exact ih hl
    · simp only [splitLines, if_neg hc] at hl
      cases hsp : splitLines cs with
      | nil => exact absurd hsp (splitLines_ne_nil cs)
      | cons t ts =>
        rw [hsp] at hl
        rcases List.mem_cons.mp hl with rfl | hl
        · intro hm
          rcases List.mem_cons.mp hm with h | h
          · exact hc h.symm
          · exact ih (hsp ▸ List.mem_cons_self t ts) h
        · exact ih (hsp ▸ List.mem_cons_of_mem t hl)

theorem splitLines_single {l : List Char} (h : '\n' ∉ l) :
    splitLines l = [l] := by
  induction l with
  | nil => rfl
  | cons c cs ih =>
    have hc : c ≠ '\n' := fun hh => h (by simp [hh])
    have hcs : '\n' ∉ cs := fun hh => h (by simp [hh])
    simp only [splitLines, if_neg hc, ih hcs]

theorem splitLines_joinLines :
    ∀ {ls : List (List Char)}, (∀ l ∈ ls, '\n' ∉ l) → ls ≠ [] →
      splitLines (joinLines ls) = ls := by
  intro ls
  induction ls with
  | nil => intro _ h; exact absurd rfl h
  | cons l ls' ih =>
    intro hn _
    cases ls' with
    | nil =>
      simp only [joinLines]
      exact splitLines_single (hn l (List.mem_cons_self l []))
    | cons l'' ls'' =>
      have : joinLines (l :: l'' :: ls'') = l ++ '\n' :: joinLines (l'' :: ls'') := rfl
      rw [this, splitLines_append_newline l _ (hn l (List.mem_cons_self _ _)),
          ih (fun x hx => hn x (List.mem_cons_of_mem l hx)) (by simp)]

theorem joinLines_splitLines : ∀ (s : List Char), joinLines (splitLines s) = s := by
  intro s
  induction s with
  | nil => rfl
  | cons c cs ih =>
    by_cases hc : c = '\n'
    · rw [show splitLines (c :: cs) = [] :: splitLines cs by simp [splitLines, hc]]
      cases hsp : splitLines cs with
      | nil => exact absurd hsp (splitLines_ne_nil cs)
      | cons t ts =>
        have : joinLines ([] :: t :: ts) = [] ++ '\n' :: joinLines (t :: ts) := rfl
        rw [this, ← hsp, ih, hc]
        rfl
    · simp only [splitLines, if_neg hc]
      cases hsp : splitLines cs with
      | nil => exact absurd hsp (splitLines_ne_nil cs)
      | cons t ts =>
        cases ts with
        | nil =>
          have hj : joinLines [c :: t] = c :: t := rfl
          rw [hj]
          have : joinLines [t] = t := rfl
          rw [hsp] at ih
          rw [this] at ih
          rw [ih]
        | cons u us =>
          have hj : joinLines ((c :: t) :: u :: us) = (c :: t) ++ '\n' :: joinLines (u :: us) := rfl
          rw [hj]
          have hj2 : joinLines (t :: u :: us) = t ++ '\n' :: joinLines (u :: us) := rfl
          rw [hsp, hj2] at ih
          simp [ih]

end PyStr

theorem list_map_eq_self {α : Type} {f : α → α} :
    ∀ {l : List α}, l.map f = l ↔ ∀ x ∈ l, f x = x := by
  intro l
  induction l with
  | nil => simp
  | cons a as ih => simp [List.cons.injEq, ih, forall_eq_or_imp]

namespace IncludeFixup

open PyStr

theorem fixLine_no_newline {s : List Char} (hn : '\n' ∉ s) :
    '\n' ∉ fixLine s := by
  cases h : findInclude s with
  | none => simpa [fixLine, h] using hn
  | some g =>
    obtain ⟨pre, g1, g2, g3⟩ := g
    have hd := findInclude_sound h
    simp only [fixLine, h]
    intro hm
    apply hn
    rw [hd]
    simp only [List.mem_append, List.mem_cons] at hm ⊢
    rcases hm with ((h1 | h1) | (h1 | h1)) | (h1 | h1)
    · exact Or.inl (Or.inl (Or.inl h1))
    · exact Or.inl (Or.inl (Or.inr h1))
    · exact absurd h1 (by decide)
    · exact Or.inl (Or.inr (Or.inr h1))
    · exact absurd h1 (by decide)
    · exact Or.inr (Or.inr h1)

theorem splitLines_fixContent (s : List Char) :
    splitLines (fixContent s) = (splitLines s).map fixLine := by
  unfold fixContent
  apply splitLines_joinLines
  · intro l hl
    obtain ⟨l0, hl0, rfl⟩ := List.mem_map.mp hl
    exact fixLine_no_newline (splitLines_no_newline hl0)
  · intro h
    exact splitLines_ne_nil s (List.map_eq_nil_iff.mp h)

theorem fixLine_fixLine {l : List Char} (hq : l.count '"' ≤ 2) :
    fixLine (fixLine l) = fixLine l := by
  have h := no_rematch hq
  simp only [fixLine] at h ⊢
  rw [h]

theorem fixContent_idem {s : List Char}
    (hq : ∀ l ∈ splitLines s, l.count '"' ≤ 2) :
    fixContent (fixContent s) = fixContent s := by
  conv_lhs => rw [fixContent, splitLines_fixContent]
  have hmm : ((splitLines s).map fixLine).map fixLine = (splitLines s).map fixLine := by
    rw [List.map_map]
    apply List.map_congr_left
    intro l hl
    exact fixLine_fixLine (hq l hl)
  rw [hmm]
  rfl

theorem substCount_fixContent {s : List Char}
    (hq : ∀ l ∈ splitLines s, l.count '"' ≤ 2) :
    substCount (fixContent s) = 0 := by
  unfold substCount
  rw [splitLines_fixContent, List.length_eq_zero, List.filter_eq_nil_iff]
  intro a ha
  obtain ⟨l0, hl0, rfl⟩ := List.mem_map.mp ha
  simp [no_rematch (hq l0 hl0)]

theorem fixContent_eq_iff {s : List Char} :
    fixContent s = s ↔ ∀ l ∈ splitLines s, findInclude l = none := by
  constructor
  · intro he l hl
    cases h : findInclude l with
    | none => rfl
    | some g =>
      obtain ⟨pre, g1, g2, g3⟩ := g
      exfalso
      have hmap : (splitLines s).map fixLine = splitLines s := by
        conv_rhs => rw [← he]
        rw [splitLines_fixContent]
      exact fixLine_ne h (list_map_eq_self.mp hmap l hl)
  · intro hn
    unfold fixContent
    have hmap : (splitLines s).map fixLine = splitLines s := by
      apply list_map_eq_self.mpr
      intro l hl
      simp [fixLine, hn l hl]
    rw [hmap, joinLines_splitLines]

end IncludeFixup

namespace IncludeFixup

open PyStr

theorem runFiles_rewrite (files : List SrcFile) :
    (runFiles false files).1
        = files.map (fun f => ⟨f.name, fixContent f.content⟩)
    ∧ (runFiles false files).2.1 = []
    ∧ (runFiles false files).2.2.1 = false := by
  induction files with
  | nil => exact ⟨rfl, rfl, rfl⟩
  | cons f fs ih =>
    obtain ⟨ih1, ih2, ih3⟩ := ih
    cases f with
    | mk n c =>
      simp only [runFiles]
      rcases hr : runFiles false fs with ⟨fs', ds, e, ws⟩
      rw [hr] at ih1 ih2 ih3
      simp only at ih1 ih2 ih3
      by_cases hc : fixContent c = c
      · simp [hc, ih1, ih2, ih3]
      · simp [hc, ih1, ih2, ih3]

theorem runFiles_noop (files : List SrcFile)
    (h : ∀ f ∈ files, fixContent f.content = f.content) :
    runFiles false files = (files, [], false, []) := by
  induction files with
  | nil => rfl
  | cons f fs ih =>
    have hf : fixContent f.content = f.content := h f (List.mem_cons_self f fs)
    have hrest := ih (fun x hx => h x (List.mem_cons_of_mem f hx))
    simp only [runFiles, hrest, hf]
    simp

theorem runFiles_check (files : List SrcFile) :
    (runFiles true files).1 = files
    ∧ (runFiles true files).2.1
        = (files.filter offending).map (fun f => diagLine f.name)
    ∧ (runFiles true files).2.2.1 = files.any offending
    ∧ (runFiles true files).2.2.2 = [] := by
  induction files with
  | nil => exact ⟨rfl, rfl, rfl, rfl⟩
  | cons f fs ih =>
    obtain ⟨ih1, ih2, ih3, ih4⟩ := ih
    simp only [runFiles]
    rcases hr : runFiles true fs with ⟨fs', ds, e, ws⟩
    rw [hr] at ih1 ih2 ih3 ih4
    simp only at ih1 ih2 ih3 ih4
    by_cases hc : fixContent f.content = f.content
    · have ho : offending f = false := by simp [offending, hc]
      simp [hc, ih1, ih2, ih3, ih4, ho, List.filter_cons, List.any_cons]
    · have ho : offending f = true := by simp [offending, hc]
      simp [hc, ih1, ih2, ih3, ih4, ho, List.filter_cons, List.any_cons]

end IncludeFixup

/-! ## Claim theorems -/

namespace DocsBuild

/-- Claim C1 (code bug in `tools/docs-build.py`): the exit status returned by
`sphinx.cmd.build.build_main` is discarded, so a failed documentation build
does NOT abort the process: the whole run of `main` is independent of the
build status, and on a concrete invocation whose build returns status 2 the
script still writes the `.nojekyll` marker, stages, commits, and exits
normally — contradicting the claim that a failed build aborts before the
marker write and commit. -/
theorem c1_build_failure_does_not_abort :
    (∀ (a : Args) (env : Env) (fs : FS),
      runMain a env fs = runMain a { env with buildStatus := 0 } fs)
    ∧ (runMain ⟨none, some "gh-pages", "scratch", "origin", true, false, false⟩
        (allOkEnv 2) emptyScratchFS).1 = .ok ()
    ∧ ((runMain ⟨none, some "gh-pages", "scratch", "origin", true, false, false⟩
        (allOkEnv 2) emptyScratchFS).2.2).nojekyll = true
    ∧ ((runMain ⟨none, some "gh-pages", "scratch", "origin", true, false, false⟩
        (allOkEnv 2) emptyScratchFS).2.2).committed = true
    ∧ Step.gitCommit ∈ (runMain ⟨none, some "gh-pages", "scratch", "origin", true, false, false⟩
        (allOkEnv 2) emptyScratchFS).2.1 :=
  ⟨fun _ _ _ => rfl, rfl, rfl, rfl, by decide⟩

/-- Claim C2 counterexample: an invocation WITHOUT `--commit-branch` whose
scratch directory exists and is non-empty and without `--delete-prior`
does not exit nonzero — it runs the sphinx build and succeeds, because the
emptiness check only happens inside the `commit_branch is not None`
block. -/
theorem c2_counterexample_no_commit_branch :
    (runMain ⟨none, none, "scratch", "origin", false, false, false⟩
        (allOkEnv 0) fullScratchFS).1 = .ok ()
    ∧ Step.sphinxBuild ∈ (runMain ⟨none, none, "scratch", "origin", false, false, false⟩
        (allOkEnv 0) fullScratchFS).2.1 :=
  ⟨rfl, by decide⟩

/-- Claim C2 (amended): for every invocation IN WHICH `--commit-branch` IS
GIVEN, if the scratch directory exists and is non-empty and
`--delete-prior` was not passed, the process terminates abnormally (nonzero
exit) before the sphinx build and before any network command (the remote
clone and the push). -/
theorem c2_nonempty_scratch_aborts (a : Args) (env : Env) (fs : FS)
    (h1 : a.commitBranch.isSome = true) (h2 : a.deletePrior = false)
    (h3 : fs.scratchExists = true) (h4 : fs.scratchNonEmpty = true) :
    failed (runMain a env fs).1 = true
    ∧ Step.sphinxBuild ∉ (runMain a env fs).2.1
    ∧ Step.cloneRemote ∉ (runMain a env fs).2.1
    ∧ Step.gitPush ∉ (runMain a env fs).2.1 := by
  obtain ⟨cb, hcb⟩ := Option.isSome_iff_exists.mp h1
  cases hcr : a.cleanRepoBranch with
  | none => simp [runMain, mainBody, commitPrep, hcr, hcb, h2, h3, h4, failed]
  | some b =>
    cases hok : env.cloneCleanOk <;>
      simp [runMain, mainBody, commitPrep, hcr, hcb, h2, h3, h4, hok, failed]

/-- Witness for C2's amended theorem at a concrete invocation. -/
theorem c2_nonempty_scratch_aborts_witness :
    failed (runMain ⟨none, some "gh-pages", "s", "r", false, false, false⟩
        (allOkEnv 0) fullScratchFS).1 = true
    ∧ Step.sphinxBuild ∉ (runMain ⟨none, some "gh-pages", "s", "r", false, false, false⟩
        (allOkEnv 0) fullScratchFS).2.1
    ∧ Step.cloneRemote ∉ (runMain ⟨none, some "gh-pages", "s", "r", false, false, false⟩
        (allOkEnv 0) fullScratchFS).2.1
    ∧ Step.gitPush ∉ (runMain ⟨none, some "gh-pages", "s", "r", false, false, false⟩
        (allOkEnv 0) fullScratchFS).2.1 :=
  c2_nonempty_scratch_aborts _ _ _ rfl rfl rfl rfl

/-- Claim C3: when `--commit-branch` is given and the preceding clean clone
(if any) succeeded, a scratch directory that is missing at the emptiness
check — which is always the case right after `--delete-prior` removed it,
and also when it never existed — makes `next(iter(scratch_dir.iterdir()), None)`
raise an unhandled `FileNotFoundError`, aborting before the remote clone
and before the build. -/
theorem c3_missing_scratch_filenotfound (a : Args) (env : Env) (fs : FS)
    (h1 : a.commitBranch.isSome = true)
    (h0 : a.cleanRepoBranch = none ∨ env.cloneCleanOk = true)
    (h2 : a.deletePrior = true ∨ fs.scratchExists = false) :
    (runMain a env fs).1 = .error (.fileNotFound .iterScratch)
    ∧ Step.cloneRemote ∉ (runMain a env fs).2.1
    ∧ Step.sphinxBuild ∉ (runMain a env fs).2.1 := by
  obtain ⟨cb, hcb⟩ := Option.isSome_iff_exists.mp h1
  rcases h0 with h0 | h0
  · cases hdp : a.deletePrior
    · have hs : fs.scratchExists = false := by
        rcases h2 with h | h
        · rw [hdp] at h; cases h
        · exact h
      simp [runMain, mainBody, commitPrep, h0, hcb, hdp, hs]
    · simp [runMain, mainBody, commitPrep, h0, hcb, hdp]
  · cases hcr : a.cleanRepoBranch with
    | none =>
      cases hdp : a.deletePrior
      · have hs : fs.scratchExists = false := by
          rcases h2 with h | h
          · rw [hdp] at h; cases h
          · exact h
        simp [runMain, mainBody, commitPrep, hcr, hcb, hdp, hs]
      · simp [runMain, mainBody, commitPrep, hcr, hcb, hdp]
    | some b =>
      cases hdp : a.deletePrior
      · have hs : fs.scratchExists = false := by
          rcases h2 with h | h
          · rw [hdp] at h; cases h
          · exact h
        simp [runMain, mainBody, commitPrep, hcr, hcb, hdp, hs, h0]
      · simp [runMain, mainBody, commitPrep, hcr, hcb, hdp, h0]

/-- Witness for C3 at a concrete invocation combining `--commit-branch`,
`--clean-repo-branch`, and `--delete-prior` with an existing scratch
directory. -/
theorem c3_missing_scratch_filenotfound_witness :
    (runMain ⟨some "develop", some "gh-pages", "s", "r", false, true, false⟩
        (allOkEnv 0) fullScratchFS).1 = .error (.fileNotFound .iterScratch)
    ∧ Step.cloneRemote ∉ (runMain ⟨some "develop", some "gh-pages", "s", "r", false, true, false⟩
        (allOkEnv 0) fullScratchFS).2.1
    ∧ Step.sphinxBuild ∉ (runMain ⟨some "develop", some "gh-pages", "s", "r", false, true, false⟩
        (allOkEnv 0) fullScratchFS).2.1 :=
  c3_missing_scratch_filenotfound _ _ _ rfl (Or.inr rfl) (Or.inl rfl)

/-- Claim C8: when `--clean-repo-branch` is given, the temporary clone
directory no longer exists in the final filesystem state, for EVERY
environment (any command may fail) and every starting state — the
`ExitStack`/`TemporaryDirectory` context removes it on all exit paths. -/
theorem c8_tmp_clone_dir_removed (a : Args) (env : Env) (fs : FS)
    (h : a.cleanRepoBranch.isSome = true) :
    ((runMain a env fs).2.2).tmpExists = false := by
  obtain ⟨b, hb⟩ := Option.isSome_iff_exists.mp h
  simp [runMain, hb]

/-- Witness for C8, on an invocation whose remote clone fails. -/
theorem c8_tmp_clone_dir_removed_witness :
    ((runMain ⟨some "develop", some "gh-pages", "s", "r", false, false, false⟩
        ⟨true, false, true, 0, true, true, true, true⟩ emptyScratchFS).2.2).tmpExists
      = false :=
  c8_tmp_clone_dir_removed _ _ _ rfl

end DocsBuild

namespace Conf

open PyStr

/-- Claim C4 counterexample: at project name `cppreference` and version `0`
(the values used by `conf.py`), the plaintext header of the generated
inventory file has FOUR `#`-prefixed lines, not three — the fourth is the
fixed line announcing the zlib-compressed remainder. -/
theorem c4_counterexample_four_hash_lines :
    ¬ headerHashLineCount "cppreference".data "0".data = 3 := by
  decide

/-- Claim C4 (amended): for every project name and version (newline-free)
and item list, the generated object-inventory file is the byte encoding of
a plaintext header of exactly FOUR `#`-prefixed lines — format version,
project name, project version, and the fixed zlib announcement — followed
by the zlib-compressed stream of newline-terminated records
`<refname> <role> 1 <path> <display-name>`, the display name defaulting to
the refname when absent. -/
theorem c4_inventory_file_format (compress : List Nat → List Nat)
    (pn pv : List Char) (items : List InvItem)
    (hpn : '\n' ∉ pn) (hpv : '\n' ∉ pv) :
    inventoryFileBytes compress pn pv items
      = encodeBytes (inventoryHeader pn pv)
        ++ compress (encodeBytes (inventoryPayload items))
    ∧ splitLines (inventoryHeader pn pv)
      = ["# Sphinx inventory version 2".data,
         "# Project: ".data ++ pn,
         "# Version: ".data ++ pv,
         "# The remainder of this file is compressed using zlib.".data,
         []]
    ∧ (∀ l ∈ (splitLines (inventoryHeader pn pv)).dropLast, l.head? = some '#')
    ∧ inventoryPayload items
      = (items.map fun i => (i.refnames.map (invRecord i)).flatten).flatten
    ∧ (∀ i : InvItem, ∀ r : List Char,
        invRecord i r
          = r ++ " ".data ++ i.role ++ " 1 ".data ++ i.path ++ " ".data
              ++ pyOrStr i.disp_name r ++ "\n".data
        ∧ (i.disp_name = none → pyOrStr i.disp_name r = r)
        ∧ (invRecord i r).getLast? = some '\n') := by
  refine ⟨rfl, splitLines_inventoryHeader pn pv hpn hpv, ?_, rfl, ?_⟩
  · rw [splitLines_inventoryHeader pn pv hpn hpv]
    intro l hl
    simp only [List.dropLast, List.mem_cons, List.not_mem_nil, or_false] at hl
    rcases hl with rfl | rfl | rfl | rfl
    · rfl
    · rfl
    · rfl
    · rfl
  · intro i r
    refine ⟨rfl, ?_, ?_⟩
    · intro h; simp [pyOrStr, h]
    · show (_ ++ "\n".data : List Char).getLast? = some '\n'
      rw [show ("\n".data : List Char) = ['\n'] from rfl, List.getLast?_concat]

/-- Witness for C4's amended theorem at concrete inputs (identity in place
of `zlib.compress`, one sample item). -/
theorem c4_inventory_file_format_witness :
    inventoryFileBytes id "cppreference".data "0".data
        [⟨["size_t".data], "cpp:type".data, "c/types/size_t".data, none⟩]
      = encodeBytes (inventoryHeader "cppreference".data "0".data)
        ++ id (encodeBytes (inventoryPayload
            [⟨["size_t".data], "cpp:type".data, "c/types/size_t".data, none⟩]))
    ∧ splitLines (inventoryHeader "cppreference".data "0".data)
      = ["# Sphinx inventory version 2".data,
         "# Project: ".data ++ "cppreference".data,
         "# Version: ".data ++ "0".data,
         "# The remainder of this file is compressed using zlib.".data,
         []]
    ∧ (∀ l ∈ (splitLines (inventoryHeader "cppreference".data "0".data)).dropLast,
        l.head? = some '#')
    ∧ inventoryPayload [⟨["size_t".data], "cpp:type".data, "c/types/size_t".data, none⟩]
      = ([⟨["size_t".data], "cpp:type".data, "c/types/size_t".data, none⟩].map
          fun i : InvItem => (i.refnames.map (invRecord i)).flatten).flatten
    ∧ (∀ i : InvItem, ∀ r : List Char,
        invRecord i r
          = r ++ " ".data ++ i.role ++ " 1 ".data ++ i.path ++ " ".data
              ++ pyOrStr i.disp_name r ++ "\n".data
        ∧ (i.disp_name = none → pyOrStr i.disp_name r = r)
        ∧ (invRecord i r).getLast? = some '\n') :=
  c4_inventory_file_format id "cppreference".data "0".data
    [⟨["size_t".data], "cpp:type".data, "c/types/size_t".data, none⟩]
    (by decide) (by decide)

/-- Claim C7: invoking the inventory generator twice with the same inputs
writes at most once — the second invocation reads back exactly the bytes it
would write and performs no write; and when the file is missing (read as
empty content) the generator always writes, since the generated content is
never empty (it starts with the header). -/
theorem c7_second_invocation_skips_write (compress : List Nat → List Nat)
    (pn pv : List Char) (items : List InvItem) (cur : Option (List Nat)) :
    (writeInventory compress pn pv items
        (writeInventory compress pn pv items cur).1).2 = false
    ∧ (writeInventory compress pn pv items none).2 = true := by
  constructor
  · cases cur with
    | none =>
      by_cases h : inventoryFileBytes compress pn pv items = ([] : List Nat) <;>
        simp [writeInventory, h]
    | some b =>
      by_cases h : inventoryFileBytes compress pn pv items = b <;>
        simp [writeInventory, h]
  · simp [writeInventory, inventoryFileBytes_ne_nil compress pn pv items]

end Conf

namespace IncludeFixup

open PyStr

/-- Claim C5 counterexample: on the line
`#include "a" #include "b" x "c"` the first rewrite produces a line that
STILL matches the quoted-include pattern (the greedy match leaves a second
`#include` followed by a quoted word behind), so the second rewrite run
performs a substitution and writes the file again — rewrite mode is not
idempotent in general. -/
theorem c5_counterexample_second_run_substitutes :
    substCount (fixContent "#include \"a\" #include \"b\" x \"c\"".data) = 1
    ∧ fixContent (fixContent "#include \"a\" #include \"b\" x \"c\"".data)
        ≠ fixContent "#include \"a\" #include \"b\" x \"c\"".data
    ∧ (runFix false (runFix false
          [⟨"f.c".data, "#include \"a\" #include \"b\" x \"c\"".data⟩]).1).2.2.2
      = ["f.c".data] :=
  ⟨by decide, by decide, by decide⟩

/-- Claim C5 (amended): for every file set in which each line of each file
contains at most two double-quote characters (which holds for any
well-formed include directive, with or without quote-free trailing
content), running the rewrite mode twice is idempotent: the second run
leaves every file unchanged, writes no file, and performs zero
substitutions. -/
theorem c5_rewrite_idempotent_bounded_quotes (files : List SrcFile)
    (hq : ∀ f ∈ files, ∀ l ∈ splitLines f.content, l.count '"' ≤ 2) :
    (runFix false (runFix false files).1).1 = (runFix false files).1
    ∧ (runFix false (runFix false files).1).2.2.2 = []
    ∧ (∀ f ∈ (runFix false files).1, substCount f.content = 0) := by
  rcases hr : runFiles false files with ⟨fs1, ds1, e1, ws1⟩
  have h1 := runFiles_rewrite files
  rw [hr] at h1
  obtain ⟨hfs1, -, -⟩ := h1
  have hfs1' : fs1 = files.map (fun f => ⟨f.name, fixContent f.content⟩) := hfs1
  have hrf : runFix false files = (fs1, ds1, if e1 then 1 else 0, ws1) := by
    simp [runFix, hr]
  have hfix : ∀ f ∈ fs1, fixContent f.content = f.content := by
    intro f hf
    rw [hfs1'] at hf
    obtain ⟨f0, hf0, rfl⟩ := List.mem_map.mp hf
    exact fixContent_idem (hq f0 hf0)
  have hnoop := runFiles_noop fs1 hfix
  refine ⟨?_, ?_, ?_⟩
  · rw [hrf]
    simp [runFix, hnoop]
  · rw [hrf]
    simp [runFix, hnoop]
  · intro f hf
    rw [hrf] at hf
    simp only at hf
    rw [hfs1'] at hf
    obtain ⟨f0, hf0, rfl⟩ := List.mem_map.mp hf
    exact substCount_fixContent (hq f0 hf0)

/-- Witness for C5's amended theorem on a one-file set whose include line
has a quote-free trailing comment. -/
theorem c5_rewrite_idempotent_bounded_quotes_witness :
    (runFix false (runFix false
        [(⟨"a.c".data, "#include \"x.h\" // hi".data⟩ : SrcFile)]).1).1
      = (runFix false [(⟨"a.c".data, "#include \"x.h\" // hi".data⟩ : SrcFile)]).1
    ∧ (runFix false (runFix false
        [(⟨"a.c".data, "#include \"x.h\" // hi".data⟩ : SrcFile)]).1).2.2.2 = []
    ∧ (∀ f ∈ (runFix false [(⟨"a.c".data, "#include \"x.h\" // hi".data⟩ : SrcFile)]).1,
        substCount f.content = 0) :=
  c5_rewrite_idempotent_bounded_quotes
    [⟨"a.c".data, "#include \"x.h\" // hi".data⟩] (by decide)

/-- Claim C6: in check mode the normalizer modifies no file and writes no
file, scans all files and prints one stderr diagnostic naming each
offending file (all of them, not stopping at the first), exits 1 when any
file is offending and 0 otherwise; and a file is offending exactly when
some line of it matches the quoted-include pattern. -/
theorem c6_check_mode_reports_all (files : List SrcFile) :
    (runFix true files).1 = files
    ∧ (runFix true files).2.1
        = (files.filter offending).map (fun f => diagLine f.name)
    ∧ (runFix true files).2.2.1 = (if files.any offending then 1 else 0)
    ∧ (runFix true files).2.2.2 = []
    ∧ (∀ f : SrcFile, offending f = true
        ↔ ((splitLines f.content).any (fun l => (findInclude l).isSome)) = true) := by
  have h := runFiles_check files
  rcases hr : runFiles true files with ⟨fs1, ds1, e1, ws1⟩
  rw [hr] at h
  obtain ⟨h1, h2, h3, h4⟩ := h
  have h1' : fs1 = files := h1
  have h2' : ds1 = (files.filter offending).map (fun f => diagLine f.name) := h2
  have h3' : e1 = files.any offending := h3
  have h4' : ws1 = [] := h4
  have hrf : runFix true files = (fs1, ds1, if e1 = true then 1 else 0, ws1) := by
    simp [runFix, hr]
  rw [hrf]
  refine ⟨h1', h2', congrArg (fun b => if b = true then 1 else 0) h3', h4', ?_⟩
  intro f
  by_cases hc : fixContent f.content = f.content
  · have hall : ∀ l ∈ splitLines f.content, findInclude l = none :=
      fixContent_eq_iff.mp hc
    simp only [offending, hc, if_pos]
    constructor
    · intro h; cases h
    · intro h
      rw [List.any_eq_true] at h
      obtain ⟨l, hl, hs⟩ := h
      rw [hall l hl] at hs
      cases hs
  · have hex : ¬ ∀ l ∈ splitLines f.content, findInclude l = none :=
      fun hn => hc (fixContent_eq_iff.mpr hn)
    push_neg at hex
    obtain ⟨l, hl, hne⟩ := hex
    simp only [offending, hc, if_neg]
    constructor
    · intro _
      rw [List.any_eq_true]
      exact ⟨l, hl, Option.isSome_iff_ne_none.mpr hne⟩
    · intro _; rfl

/-- Claim C9: a quoted include with a trailing comment is rewritten to the
angle-bracket form with the trailing comment preserved, both at line level
and at file level. -/
theorem c9_trailing_comment_preserved :
    fixLine "#include \"foo/bar.h\"  // comment".data
      = "#include <foo/bar.h>  // comment".data
    ∧ fixContent "#include \"foo/bar.h\"  // comment".data
      = "#include <foo/bar.h>  // comment".data :=
  ⟨by decide, by decide⟩

/-- Claim C10: the greedy pattern brackets everything up to the LAST double
quote on the line: `#include "a.h" // "x"` becomes
`#include <a.h" // "x>`, not `#include <a.h> // "x"`. -/
theorem c10_greedy_matches_last_quote :
    fixLine "#include \"a.h\" // \"x\"".data = "#include <a.h\" // \"x>".data
    ∧ fixLine "#include \"a.h\" // \"x\"".data ≠ "#include <a.h> // \"x\"".data :=
  ⟨by decide, by decide⟩

end IncludeFixup
